import Mathlib

/-!
Verification of the store-and-forward telemetry pipeline
(`agent.py`, `server.py`, `process_zipped_data.py`).

The Python code is shallowly embedded: dictionaries become records with
`Option` fields (a `none` field models an absent key, `Option.getD`
models `dict.get(key, default)`), numeric JSON values that are only ever
interpolated into f-strings are modelled by their rendered string, the
MongoDB collections become a `Finset` of registered ids plus lists of
stored documents, and the file system becomes a `Finset` of file names.
Python's `sorted` on strings is lexicographic comparison of Unicode code
points, embedded below as an executable insertion sort with `lexLe`.
-/

namespace AgentColl

/-- Lexicographic order on code-point lists: Python's `str` comparison. -/
def lexLe : List Nat → List Nat → Bool
  | [], _ => true
  | _ :: _, [] => false
  | a :: as, b :: bs => if a < b then true else if a = b then lexLe as bs else false

/-- Python string `<=`: lexicographic on Unicode code points. -/
def strLe (a b : String) : Bool :=
  lexLe (a.toList.map Char.toNat) (b.toList.map Char.toNat)

/-- Stable insertion into a sorted list (helper for the embedded `sorted`). -/
def insertLe {α : Type} (le : α → α → Bool) (x : α) : List α → List α
  | [] => [x]
  | y :: ys => if le x y then x :: y :: ys else y :: insertLe le x ys

/-- A stable sort; with a total antisymmetric order it computes Python's `sorted`. -/
def sortLe {α : Type} (le : α → α → Bool) : List α → List α
  | [] => []
  | x :: xs => insertLe le x (sortLe le xs)

/-- Python `str.endswith`, on code points. -/
def strEndsWith (s suff : String) : Bool :=
  List.isSuffixOf (suff.toList.map Char.toNat) (s.toList.map Char.toNat)

/-- Python truthiness of an optional string: `None` and `""` are falsy. -/
def truthyStr : Option String → Bool
  | none => false
  | some s => s != ""

/-! ## Snapshot data model

The snapshot JSON produced by `agent.py`'s `collect_initial_data` and read by
`generate_machine_id` / `process_data` / `StaticData` in `server.py` and
`process_zipped_data.py`.  A `none` field models an absent dictionary key;
numeric values (`coeurs_logiques`, the frequencies) are modelled by the string
they render to inside the f-string building `unique_string`, with the `.get`
default `0` rendering to `"0"`. -/

/-- The `os` sub-dictionary (`collect_initial_data`: nom/version/release/architecture/hostname). -/
structure OsDict where
  nom : Option String
  version : Option String
  release : Option String
  architecture : Option String
  hostname : Option String
deriving DecidableEq, Repr

def OsDict.empty : OsDict := ⟨none, none, none, none, none⟩

/-- One entry of `utilisateurs_connectes` (`get_logged_users`). -/
structure UserDict where
  username : Option String
deriving DecidableEq, Repr

/-- The `cpu.frequence` sub-dictionary; values as rendered strings. -/
structure FreqDict where
  actuelle : Option String
  min : Option String
  max : Option String
deriving DecidableEq, Repr

def FreqDict.empty : FreqDict := ⟨none, none, none⟩

/-- The `cpu` sub-dictionary. -/
structure CpuDict where
  type : Option String
  coeurs_physiques : Option String
  coeurs_logiques : Option String
  frequence : Option FreqDict
deriving DecidableEq, Repr

def CpuDict.empty : CpuDict := ⟨none, none, none, none⟩

/-- The `bios_carte_mere.BIOS` sub-dictionary (`get_bios_motherboard_info`). -/
structure BiosInner where
  fabricant : Option String
  version : Option String
  date : Option String
deriving DecidableEq, Repr

def BiosInner.empty : BiosInner := ⟨none, none, none⟩

/-- The `bios_carte_mere.Carte mère` sub-dictionary. -/
structure BoardInner where
  fabricant : Option String
  modele : Option String
deriving DecidableEq, Repr

def BoardInner.empty : BoardInner := ⟨none, none⟩

/-- The `bios_carte_mere` dictionary: keys `BIOS` and `Carte mère`. -/
structure BiosDict where
  bios : Option BiosInner
  carte_mere : Option BoardInner
deriving DecidableEq, Repr

def BiosDict.empty : BiosDict := ⟨none, none⟩

/-- The `memoire.ram` sub-dictionary; only `total` is ever read by the core. -/
structure RamDict where
  total : Option String
deriving DecidableEq, Repr

def RamDict.empty : RamDict := ⟨none⟩

/-- The `memoire` dictionary. -/
structure MemDict where
  ram : Option RamDict
deriving DecidableEq, Repr

def MemDict.empty : MemDict := ⟨none⟩

/-- A snapshot (`collect_initial_data` output / the `content` of a static
envelope).  Fields that the synchronization core only stores, never inspects
(`disque`, `gpu`, `peripheriques_usb`, …), are carried as opaque rendered
payload strings. -/
structure StaticContent where
  timestamp : Option String
  os : Option OsDict
  type_machine : Option String
  cpu : Option CpuDict
  memoire : Option MemDict
  disque : Option String
  adresse_mac : Option String
  resolution_ecran : Option String
  gpu : Option String
  interfaces_reseau : Option String
  bios_carte_mere : Option BiosDict
  utilisateurs_connectes : Option (List UserDict)
  partitions_disque : Option String
  peripheriques_usb : Option String
  battery_initial : Option String
  heure_demarrage_systeme : Option String
deriving DecidableEq, Repr

/-- The empty JSON object read as a snapshot: every key absent. -/
def StaticContent.empty : StaticContent :=
  ⟨none, none, none, none, none, none, none, none, none, none, none, none,
    none, none, none, none⟩

namespace Server

/-- `server.py` `MonitoringServer.generate_machine_id`.  `md5hex` stands for
`lambda s: hashlib.md5(s.encode('utf-8')).hexdigest()`, a fixed deterministic
function of the canonical string. -/
def generate_machine_id (md5hex : String → String) (static_data : StaticContent) : String :=
  let os_info := static_data.os.getD OsDict.empty
  let cpu_info := static_data.cpu.getD CpuDict.empty
  let bios_info := static_data.bios_carte_mere.getD BiosDict.empty
  let memoire_info := static_data.memoire.getD MemDict.empty
  let users := static_data.utilisateurs_connectes.getD []
  let username := match users.head? with
    | some u => u.username.getD ""
    | none => ""
  let unique_string :=
    (os_info.hostname.getD "") ++ (os_info.nom.getD "") ++ (os_info.release.getD "")
    ++ (os_info.version.getD "") ++ username
    ++ (cpu_info.coeurs_logiques.getD "0")
    ++ ((cpu_info.frequence.getD FreqDict.empty).min.getD "0")
    ++ ((cpu_info.frequence.getD FreqDict.empty).max.getD "0")
    ++ ((bios_info.bios.getD BiosInner.empty).fabricant.getD "")
    ++ ((bios_info.bios.getD BiosInner.empty).version.getD "")
    ++ ((bios_info.carte_mere.getD BoardInner.empty).fabricant.getD "")
    ++ ((bios_info.carte_mere.getD BoardInner.empty).modele.getD "")
    ++ ((memoire_info.ram.getD RamDict.empty).total.getD "")
  md5hex unique_string

end Server

namespace ZipProcessor

/-- `process_zipped_data.py` `ZipDataProcessor.generate_machine_id`, the
offline-bootstrap path's identity derivation, embedded from its own source
text. -/
def generate_machine_id (md5hex : String → String) (static_data : StaticContent) : String :=
  let os_info := static_data.os.getD OsDict.empty
  let cpu_info := static_data.cpu.getD CpuDict.empty
  let bios_info := static_data.bios_carte_mere.getD BiosDict.empty
  let memoire_info := static_data.memoire.getD MemDict.empty
  let users := static_data.utilisateurs_connectes.getD []
  let username := match users.head? with
    | some u => u.username.getD ""
    | none => ""
  let unique_string :=
    (os_info.hostname.getD "") ++ (os_info.nom.getD "") ++ (os_info.release.getD "")
    ++ (os_info.version.getD "") ++ username
    ++ (cpu_info.coeurs_logiques.getD "0")
    ++ ((cpu_info.frequence.getD FreqDict.empty).min.getD "0")
    ++ ((cpu_info.frequence.getD FreqDict.empty).max.getD "0")
    ++ ((bios_info.bios.getD BiosInner.empty).fabricant.getD "")
    ++ ((bios_info.bios.getD BiosInner.empty).version.getD "")
    ++ ((bios_info.carte_mere.getD BoardInner.empty).fabricant.getD "")
    ++ ((bios_info.carte_mere.getD BoardInner.empty).modele.getD "")
    ++ ((memoire_info.ram.getD RamDict.empty).total.getD "")
  md5hex unique_string

end ZipProcessor

/-! ## Server: wire data, persistence state, `process_data`, admission -/

/-- A parsed wire envelope as `server.py` sees it (`json_data` in
`handle_client`).  `has_machine_id` models `'machine_id' in data` (the key may
be present with a JSON `null` value, which `data.get('machine_id')` returns as
`None`, modelled by `machine_id = none`). -/
structure WireData where
  version : Option String
  content : Option StaticContent
  has_machine_id : Bool
  machine_id : Option String
deriving DecidableEq, Repr

/-- A JSON response line: `{status, message?, machine_id?}`. -/
structure JsonResp where
  status : String
  message : Option String
  machine_id : Option String
deriving DecidableEq, Repr

/-- The MongoDB state touched by the server: the `machine_ids` registry
(as the set of registered ids), the set of ids owning a static document, and
the inserted variable (sample) documents, each reduced to the `machine_id` it
was stored under. -/
structure ServerDB where
  machine_ids : Finset String
  static_docs : Finset String
  variable_docs : List String

/-- Pydantic validation `StaticData(**content)` in `server.py`: the six
required keys (`os`, `cpu`, `memoire`, `bios_carte_mere`,
`utilisateurs_connectes`, `adresse_mac`) must be present. -/
def staticDataValidates (c : StaticContent) : Bool :=
  c.os.isSome && c.cpu.isSome && c.memoire.isSome && c.bios_carte_mere.isSome
    && c.utilisateurs_connectes.isSome && c.adresse_mac.isSome

namespace Server

/-- `server.py` `MonitoringServer.process_data`.  Returns the response and the
updated persistence state.  The MongoDB calls themselves are assumed to
succeed (their failure branches return unrelated error messages and are driven
by the external gateway, not by the envelope).  A missing `content`
(`'os' in None`) raises `TypeError`, caught by the outer generic handler which
answers `status error` with `str(e)` as message. -/
def process_data (md5hex : String → String) (db : ServerDB) (data : WireData) :
    JsonResp × ServerDB :=
  if data.version ≠ some "1.0" then
    (⟨"error", some "Invalid data version", none⟩, db)
  else
    match data.content with
    | none => (⟨"error", some "argument of type NoneType is not iterable", none⟩, db)
    | some content =>
      if content.os.isSome then
        if staticDataValidates content then
          let machine_id := generate_machine_id md5hex content
          (⟨"success", some "Static data registered", some machine_id⟩,
            { machine_ids := insert machine_id db.machine_ids,
              static_docs := insert machine_id db.static_docs,
              variable_docs := db.variable_docs })
        else
          (⟨"error", some "Invalid data format", none⟩, db)
      else if data.has_machine_id then
        match data.machine_id with
        | some m =>
          if m ∈ db.machine_ids then
            (⟨"success", some "Variable data saved", none⟩,
              { db with variable_docs := db.variable_docs ++ [m] })
          else
            (⟨"error", some "RESEND_STATIC_DATA", none⟩, db)
        | none => (⟨"error", some "RESEND_STATIC_DATA", none⟩, db)
      else
        (⟨"error", some "Invalid data format", none⟩, db)

/-- `MAX_CONCURRENT_CONNECTIONS` in `server.py`. -/
def MAX_CONCURRENT_CONNECTIONS : Nat := 50

/-- `ThreadPoolExecutor(max_workers=MAX_CONCURRENT_CONNECTIONS)` in
`start_server`: the pool never runs more than this many `handle_client`
workers at once; further submitted connections wait in its queue. -/
def MAX_WORKERS : Nat := MAX_CONCURRENT_CONNECTIONS

/-- The scheduler-visible events of `start_server` + `handle_client`:
`active_connections` is mutated only inside `handle_client` (increment and
cap check under the lock at entry, decrement in `finally`), and
`handle_client` runs only as a task of the bounded executor, so the
connection machinery is this five-event system. -/
inductive PoolEvent where
  /-- `start_server`: `accept()` returns and the connection is
  `executor.submit`ted (it joins the executor's queue). -/
  | submit
  /-- A free pool thread (fewer than `max_workers` running) dequeues a
  submitted connection and begins `handle_client`. -/
  | workerStart
  /-- The `with self.lock` block at the top of `handle_client`: increment
  `active_connections`; if it now exceeds the cap, send
  `Too many connections` and return (the rejection branch). -/
  | enterLock
  /-- An admitted worker finishes (peer closed or error): `finally` closes
  the socket and decrements the counter. -/
  | finishServe
  /-- A rejected worker's `return` reaches `finally`: close and decrement. -/
  | finishReject
deriving DecidableEq, Repr

/-- Connection-machinery state: how many connections sit in the executor
queue, how many workers are before the lock section, how many are admitted
and serving frames, how many took the rejection branch but have not yet
decremented, and how many rejection responses were ever sent. -/
structure PoolState where
  queued : Nat
  preEntry : Nat
  serving : Nat
  rejPending : Nat
  rejectedTotal : Nat
deriving DecidableEq, Repr

/-- The Python `active_connections` variable: workers between their
increment and their `finally` decrement. -/
def PoolState.active_connections (st : PoolState) : Nat :=
  st.serving + st.rejPending

/-- Workers currently executing `handle_client` (bounded by the pool). -/
def PoolState.runningWorkers (st : PoolState) : Nat :=
  st.preEntry + st.serving + st.rejPending

/-- One scheduler step; `none` when the event is not enabled (no queued
connection, no free worker, nothing to finish).  `enterLock` embeds the
admission section of `handle_client` verbatim: increment, then reject iff
the counter exceeds `MAX_CONCURRENT_CONNECTIONS`; `workerStart` embeds the
executor's `max_workers` bound. -/
def poolStep (st : PoolState) : PoolEvent → Option PoolState
  | .submit => some { st with queued := st.queued + 1 }
  | .workerStart =>
    if 0 < st.queued ∧ st.runningWorkers < MAX_WORKERS then
      some { st with queued := st.queued - 1, preEntry := st.preEntry + 1 }
    else none
  | .enterLock =>
    if 0 < st.preEntry then
      if MAX_CONCURRENT_CONNECTIONS < st.active_connections + 1 then
        some { st with preEntry := st.preEntry - 1,
                       rejPending := st.rejPending + 1,
                       rejectedTotal := st.rejectedTotal + 1 }
      else
        some { st with preEntry := st.preEntry - 1, serving := st.serving + 1 }
    else none
  | .finishServe =>
    if 0 < st.serving then some { st with serving := st.serving - 1 } else none
  | .finishReject =>
    if 0 < st.rejPending then
      some { st with rejPending := st.rejPending - 1 }
    else none

/-- Server start: no connections, counter 0. -/
def initPool : PoolState := ⟨0, 0, 0, 0, 0⟩

/-- Run a schedule; events not enabled in the current state do nothing (the
scheduler only ever fires enabled events). -/
def runPool : List PoolEvent → PoolState → PoolState
  | [], st => st
  | e :: es, st =>
    match poolStep st e with
    | some st2 => runPool es st2
    | none => runPool es st

/-- The inductive invariant of the connection machinery: never more running
workers than the pool allows, no worker stuck in the rejection branch, and
no rejection response ever sent. -/
def PoolInv (st : PoolState) : Prop :=
  st.runningWorkers ≤ MAX_WORKERS ∧ st.rejPending = 0 ∧ st.rejectedTotal = 0

/-- A schedule that fills the server to its cap and then delivers one more
connection: 50 rounds of accept/start/admit, then a 51st accept. -/
def overCapTrace : List PoolEvent :=
  (List.replicate MAX_CONCURRENT_CONNECTIONS
    [PoolEvent.submit, PoolEvent.workerStart, PoolEvent.enterLock]).flatten
    ++ [PoolEvent.submit]

end Server

/-! ## Agent: spool queue, send cycle, collection loop -/

namespace Agent

/-- `STORAGE_LIMIT` in `agent.py`: 200 MiB. -/
def STORAGE_LIMIT : Nat := 200 * 1024 * 1024

/-- The body of the scanning loop shared by `get_next_filename` and
`reset_file_counter`: `while os.path.exists(f"data/{c}.json.gz"): c += 1`.
The spool directory is modelled by the set `disk` of sequence numbers whose
`<n>.json.gz` file exists; `fuel` bounds the scan (any fuel beyond
`disk.card` is enough, see `nextFreeFrom_not_mem`). -/
def nextFreeFrom (disk : Finset Nat) : Nat → Nat → Nat
  | 0, c => c
  | fuel + 1, c => if c ∈ disk then nextFreeFrom disk fuel (c + 1) else c

/-- `agent.py` `reset_file_counter`: restart the counter at 1 and advance it
past every still-existing spool file. -/
def reset_file_counter (disk : Finset Nat) : Nat :=
  nextFreeFrom disk (disk.card + 1) 1

/-- `agent.py` `get_next_filename`: advance the current global `file_counter`
past every still-existing spool file and return it (the chosen sequence
number). -/
def get_next_filename (disk : Finset Nat) (file_counter : Nat) : Nat :=
  nextFreeFrom disk (disk.card + 1) file_counter

/-- `agent.py` `is_storage_limit_reached`, applied to the computed
`get_data_directory_size()` (sum of the sizes of the `.json.gz` files). -/
def is_storage_limit_reached (dirSize : Nat) : Bool :=
  STORAGE_LIMIT ≤ dirSize

/-- The ordered send list built at the top of `send_files_to_server`:
`sorted`-by-string of the `.json.gz` listing, with `1.json.gz` moved to the
front when it is present and `machine_id` is falsy. -/
def sendList (listing : List String) (machine_id : Option String) : List String :=
  let json_files := sortLe strLe (listing.filter (fun f => strEndsWith f ".json.gz"))
  if "1.json.gz" ∈ json_files ∧ truthyStr machine_id = false then
    "1.json.gz" :: json_files.filter (fun f => f ≠ "1.json.gz")
  else
    json_files

/-- What one iteration of the per-file loop in `send_files_to_server`
observes for the file it carries. -/
inductive SendOutcome where
  /-- Response with `status == "success"`; the payload is the response's
  `machine_id` field (`none` models absent/null/empty treated by `.get`). -/
  | success (machine_id : Option String)
  /-- Response with `message == "RESEND_STATIC_DATA"` (and non-success status). -/
  | resendStatic
  /-- Any other response (non-success status, other message). -/
  | otherFailure
  /-- Read/decompress/JSON-parse/recv failure for this file: the generic
  `except Exception` branch; nothing is deleted and the loop continues. -/
  | fileFailure
  /-- `ConnectionResetError`/`BrokenPipeError`: the loop `break`s. -/
  | connectionLost
deriving DecidableEq, Repr

/-- The mutable state of one invocation of `send_files_to_server`.
`json_files` is the Python list being iterated (mutated in place by the
`RESEND_STATIC_DATA` branch), `disk` the set of file names present in the
spool directory, `machine_id` the local variable, `saved_id` the contents of
`machine_id.txt` (written by `save_machine_id`), and `log` records one entry
per loop iteration: the file the envelope carried and its outcome. -/
structure SendState where
  json_files : List String
  disk : Finset String
  machine_id : Option String
  saved_id : Option String
  log : List (String × SendOutcome)

/-- The per-file loop of `send_files_to_server`, embedded with CPython's list
iterator semantics: after `n` yields the iterator reads index `n` of the
*current* list, so an `insert(0, ...)` performed mid-iteration shifts every
remaining element one slot to the right.  `outcome n` is what iteration `n`
observes.  On `success`, `machine_id` is taken from the response and
persisted when the file is `1.json.gz` and the response id is truthy, and
the spool file is removed (`os.remove`; removing is modelled by
`Finset.erase`, a no-op when the file is already gone, matching the raised
`FileNotFoundError` being swallowed after the other effects). -/
def send_files_loop (outcome : Nat → SendOutcome) :
    Nat → Nat → SendState → SendState
  | 0, _, st => st
  | fuel + 1, n, st =>
    match st.json_files[n]? with
    | none => st
    | some f =>
      match outcome n with
      | .connectionLost => { st with log := st.log ++ [(f, .connectionLost)] }
      | .fileFailure =>
        send_files_loop outcome fuel (n + 1) { st with log := st.log ++ [(f, .fileFailure)] }
      | .otherFailure =>
        send_files_loop outcome fuel (n + 1) { st with log := st.log ++ [(f, .otherFailure)] }
      | .resendStatic =>
        if f ≠ "1.json.gz" ∧ "1.json.gz" ∈ st.disk then
          send_files_loop outcome fuel (n + 1)
            { st with json_files := "1.json.gz" :: st.json_files,
                      log := st.log ++ [(f, .resendStatic)] }
        else
          send_files_loop outcome fuel (n + 1) { st with log := st.log ++ [(f, .resendStatic)] }
      | .success mid =>
        if f = "1.json.gz" ∧ truthyStr mid = true then
          send_files_loop outcome fuel (n + 1)
            { st with machine_id := mid, saved_id := mid,
                      log := st.log ++ [(f, SendOutcome.success mid)],
                      disk := st.disk.erase f }
        else
          send_files_loop outcome fuel (n + 1)
            { st with log := st.log ++ [(f, SendOutcome.success mid)],
                      disk := st.disk.erase f }

/-- Initial state of a send cycle: the freshly built list, the spool contents,
the cached identity, and an empty iteration log. -/
def initSendState (files : List String) (disk : Finset String)
    (machine_id saved_id : Option String) : SendState :=
  { json_files := files, disk := disk, machine_id := machine_id,
    saved_id := saved_id, log := [] }

/-- What one iteration of the `while True:` body of `continuous_collection`
does. -/
inductive CollectionStep where
  /-- The `break` branch: the loop (and with it the whole collection) stops. -/
  | halt
  /-- A normal tick: whether a sample was captured and saved this tick, and
  whether a send cycle ran this tick. -/
  | ran (captured : Bool) (sent : Bool)
deriving DecidableEq, Repr

/-- The observable inputs of one tick of `continuous_collection`:
the current spool size, whether `1.json.gz` exists (`initial_data_saved`),
the current identity, and whether `SEND_INTERVAL` has elapsed. -/
structure CollectionState where
  dirSize : Nat
  initial_data_saved : Bool
  machine_id : Option String
  dueSend : Bool
deriving DecidableEq, Repr

/-- One iteration of the `while True:` loop of `continuous_collection`:
`if is_storage_limit_reached(): break` ends the loop; otherwise a sample is
captured and spooled when `machine_id` is truthy, and `send_files_to_server`
runs when the send interval has elapsed. -/
def continuous_collection_step (st : CollectionState) : CollectionStep :=
  if is_storage_limit_reached st.dirSize then
    .halt
  else
    .ran (truthyStr st.machine_id) st.dueSend

end Agent

/-! ## Order lemmas -/

theorem lexLe_total : ∀ a b : List Nat, lexLe a b = true ∨ lexLe b a = true := by
  intro a
  induction a with
  | nil => intro b; left; rfl
  | cons x xs ih =>
    intro b
    cases b with
    | nil => right; rfl
    | cons y ys =>
      by_cases hxy : x < y
      · left; simp [lexLe, hxy]
      · by_cases hyx : y < x
        · right; simp [lexLe, hyx]
        · have hxe : x = y := Nat.le_antisymm (Nat.le_of_not_lt hyx) (Nat.le_of_not_lt hxy)
          subst hxe
          rcases ih ys with h | h
          · left; simp [lexLe, h]
          · right; simp [lexLe, h]

theorem lexLe_trans :
    ∀ a b c : List Nat, lexLe a b = true → lexLe b c = true → lexLe a c = true := by
  intro a
  induction a with
  | nil => intro b c _ _; rfl
  | cons x xs ih =>
    intro b c hab hbc
    cases b with
    | nil => simp [lexLe] at hab
    | cons y ys =>
      cases c with
      | nil => simp [lexLe] at hbc
      | cons z zs =>
        simp only [lexLe] at hab hbc ⊢
        rcases Nat.lt_trichotomy x y with hxy | hxy | hxy
        · rcases Nat.lt_trichotomy y z with hyz | hyz | hyz
          · simp [Nat.lt_trans hxy hyz]
          · subst hyz; simp [hxy]
          · rw [if_neg (Nat.lt_asymm hyz), if_neg (Ne.symm (Nat.ne_of_lt hyz))] at hbc
            exact absurd hbc (by simp)
        · subst hxy
          rw [if_neg (lt_irrefl x), if_pos rfl] at hab
          rcases Nat.lt_trichotomy x z with hxz | hxz | hxz
          · simp [hxz]
          · subst hxz
            rw [if_neg (lt_irrefl x), if_pos rfl] at hbc ⊢
            exact ih ys zs hab hbc
          · rw [if_neg (Nat.lt_asymm hxz), if_neg (Ne.symm (Nat.ne_of_lt hxz))] at hbc
            exact absurd hbc (by simp)
        · rw [if_neg (Nat.lt_asymm hxy), if_neg (Ne.symm (Nat.ne_of_lt hxy))] at hab
          exact absurd hab (by simp)

theorem strLe_total (a b : String) : strLe a b = true ∨ strLe b a = true :=
  lexLe_total _ _

theorem strLe_trans (a b c : String) :
    strLe a b = true → strLe b c = true → strLe a c = true :=
  lexLe_trans _ _ _

theorem mem_insertLe {α : Type} (le : α → α → Bool) (x y : α) :
    ∀ l : List α, y ∈ insertLe le x l ↔ y = x ∨ y ∈ l := by
  intro l
  induction l with
  | nil => simp [insertLe]
  | cons z zs ih =>
    cases h : le x z with
    | true => simp only [insertLe, h, if_true, List.mem_cons]
    | false =>
      simp only [insertLe, h, Bool.false_eq_true, if_false, List.mem_cons, ih]
      tauto

theorem pairwise_insertLe {α : Type} (le : α → α → Bool)
    (htrans : ∀ a b c, le a b = true → le b c = true → le a c = true)
    (htotal : ∀ a b, le a b = true ∨ le b a = true) (x : α) :
    ∀ l : List α, l.Pairwise (fun a b => le a b = true) →
      (insertLe le x l).Pairwise (fun a b => le a b = true) := by
  intro l
  induction l with
  | nil => intro _; simp [insertLe]
  | cons y ys ih =>
    intro hp
    rcases List.pairwise_cons.mp hp with ⟨hy, hys⟩
    cases h : le x y with
    | true =>
      simp only [insertLe, h, if_true]
      refine List.pairwise_cons.mpr ⟨?_, hp⟩
      intro b hb
      rcases List.mem_cons.mp hb with hb | hb
      · subst hb; exact h
      · exact htrans _ _ _ h (hy b hb)
    | false =>
      simp only [insertLe, h, Bool.false_eq_true, if_false]
      refine List.pairwise_cons.mpr ⟨?_, ih hys⟩
      intro b hb
      rcases (mem_insertLe le x b ys).mp hb with hb | hb
      · rw [hb]
        rcases htotal x y with h' | h'
        · rw [h'] at h; exact Bool.noConfusion h
        · exact h'
      · exact hy b hb

theorem pairwise_sortLe {α : Type} (le : α → α → Bool)
    (htrans : ∀ a b c, le a b = true → le b c = true → le a c = true)
    (htotal : ∀ a b, le a b = true ∨ le b a = true) :
    ∀ l : List α, (sortLe le l).Pairwise (fun a b => le a b = true) := by
  intro l
  induction l with
  | nil => simp [sortLe]
  | cons x xs ih => exact pairwise_insertLe le htrans htotal x _ ih

/-! ## Send-loop lemmas -/

theorem truthyStr_isSome {mid : Option String} (h : truthyStr mid = true) :
    mid.isSome = true := by
  cases mid with
  | none => simp [truthyStr] at h
  | some s => rfl

theorem send_files_loop_disk_mono (o : Nat → Agent.SendOutcome) :
    ∀ fuel n st f, f ∈ (Agent.send_files_loop o fuel n st).disk → f ∈ st.disk := by
  intro fuel
  induction fuel with
  | zero => intro n st f h; exact h
  | succ fuel ih =>
    intro n st f h
    cases hg : st.json_files[n]? with
    | none => simp only [Agent.send_files_loop, hg] at h; exact h
    | some g =>
      cases ho : o n with
      | connectionLost => simp only [Agent.send_files_loop, hg, ho] at h; exact h
      | fileFailure =>
        simp only [Agent.send_files_loop, hg, ho] at h
        have h2 := ih _ _ _ h
        exact h2
      | otherFailure =>
        simp only [Agent.send_files_loop, hg, ho] at h
        have h2 := ih _ _ _ h
        exact h2
      | resendStatic =>
        simp only [Agent.send_files_loop, hg, ho] at h
        split at h
        · have h2 := ih _ _ _ h
          exact h2
        · have h2 := ih _ _ _ h
          exact h2
      | success mid =>
        simp only [Agent.send_files_loop, hg, ho] at h
        split at h
        · have h2 := ih _ _ _ h
          exact Finset.mem_of_mem_erase (show f ∈ st.disk.erase g from h2)
        · have h2 := ih _ _ _ h
          exact Finset.mem_of_mem_erase (show f ∈ st.disk.erase g from h2)

theorem send_files_loop_log_mono (o : Nat → Agent.SendOutcome) :
    ∀ fuel n st e, e ∈ st.log → e ∈ (Agent.send_files_loop o fuel n st).log := by
  intro fuel
  induction fuel with
  | zero => intro n st e h; exact h
  | succ fuel ih =>
    intro n st e h
    cases hg : st.json_files[n]? with
    | none => simp only [Agent.send_files_loop, hg]; exact h
    | some g =>
      cases ho : o n with
      | connectionLost =>
        simp only [Agent.send_files_loop, hg, ho]
        exact List.mem_append_left _ h
      | fileFailure =>
        simp only [Agent.send_files_loop, hg, ho]
        exact ih _ _ _ (List.mem_append_left _ h)
      | otherFailure =>
        simp only [Agent.send_files_loop, hg, ho]
        exact ih _ _ _ (List.mem_append_left _ h)
      | resendStatic =>
        simp only [Agent.send_files_loop, hg, ho]
        split
        · exact ih _ _ _ (List.mem_append_left _ h)
        · exact ih _ _ _ (List.mem_append_left _ h)
      | success mid =>
        simp only [Agent.send_files_loop, hg, ho]
        split
        · exact ih _ _ _ (List.mem_append_left _ h)
        · exact ih _ _ _ (List.mem_append_left _ h)

theorem send_files_loop_removed_success (o : Nat → Agent.SendOutcome) :
    ∀ fuel n st f, f ∈ st.disk → f ∉ (Agent.send_files_loop o fuel n st).disk →
      ∃ m, (f, Agent.SendOutcome.success m) ∈ (Agent.send_files_loop o fuel n st).log := by
  intro fuel
  induction fuel with
  | zero => intro n st f hf h; exact absurd hf h
  | succ fuel ih =>
    intro n st f hf h
    cases hg : st.json_files[n]? with
    | none => simp only [Agent.send_files_loop, hg] at h; exact absurd hf h
    | some g =>
      cases ho : o n with
      | connectionLost =>
        simp only [Agent.send_files_loop, hg, ho] at h
        exact absurd hf h
      | fileFailure =>
        simp only [Agent.send_files_loop, hg, ho] at h ⊢
        exact ih _ _ _ hf h
      | otherFailure =>
        simp only [Agent.send_files_loop, hg, ho] at h ⊢
        exact ih _ _ _ hf h
      | resendStatic =>
        simp only [Agent.send_files_loop, hg, ho] at h ⊢
        split at h
        · rw [if_pos (by assumption)]
          exact ih _ _ _ hf h
        · rw [if_neg (by assumption)]
          exact ih _ _ _ hf h
      | success mid =>
        simp only [Agent.send_files_loop, hg, ho] at h ⊢
        by_cases hfg : f = g
        · subst hfg
          refine ⟨mid, ?_⟩
          split <;>
            exact send_files_loop_log_mono o fuel _ _ _
              (List.mem_append_right _ (List.mem_singleton.mpr rfl))
        · split at h
          · rw [if_pos (by assumption)]
            exact ih _ _ _ (Finset.mem_erase_of_ne_of_mem hfg hf) h
          · rw [if_neg (by assumption)]
            exact ih _ _ _ (Finset.mem_erase_of_ne_of_mem hfg hf) h

theorem send_files_loop_success_removed (o : Nat → Agent.SendOutcome) :
    ∀ fuel n st f m,
      (f, Agent.SendOutcome.success m) ∈ (Agent.send_files_loop o fuel n st).log →
      (f, Agent.SendOutcome.success m) ∈ st.log ∨
        f ∉ (Agent.send_files_loop o fuel n st).disk := by
  intro fuel
  induction fuel with
  | zero => intro n st f m h; exact Or.inl h
  | succ fuel ih =>
    intro n st f m h
    cases hg : st.json_files[n]? with
    | none => simp only [Agent.send_files_loop, hg] at h ⊢; exact Or.inl h
    | some g =>
      cases ho : o n with
      | connectionLost =>
        simp only [Agent.send_files_loop, hg, ho] at h ⊢
        rcases List.mem_append.mp h with h | h
        · exact Or.inl h
        · exact absurd (List.mem_singleton.mp h) (by simp)
      | fileFailure =>
        simp only [Agent.send_files_loop, hg, ho] at h ⊢
        rcases ih _ _ _ _ h with h' | h'
        · rcases List.mem_append.mp h' with h'' | h''
          · exact Or.inl h''
          · exact absurd (List.mem_singleton.mp h'') (by simp)
        · exact Or.inr h'
      | otherFailure =>
        simp only [Agent.send_files_loop, hg, ho] at h ⊢
        rcases ih _ _ _ _ h with h' | h'
        · rcases List.mem_append.mp h' with h'' | h''
          · exact Or.inl h''
          · exact absurd (List.mem_singleton.mp h'') (by simp)
        · exact Or.inr h'
      | resendStatic =>
        simp only [Agent.send_files_loop, hg, ho] at h ⊢
        split at h
        · rw [if_pos (by assumption)]
          rcases ih _ _ _ _ h with h' | h'
          · rcases List.mem_append.mp h' with h'' | h''
            · exact Or.inl h''
            · exact absurd (List.mem_singleton.mp h'') (by simp)
          · exact Or.inr h'
        · rw [if_neg (by assumption)]
          rcases ih _ _ _ _ h with h' | h'
          · rcases List.mem_append.mp h' with h'' | h''
            · exact Or.inl h''
            · exact absurd (List.mem_singleton.mp h'') (by simp)
          · exact Or.inr h'
      | success mid =>
        simp only [Agent.send_files_loop, hg, ho] at h ⊢
        split at h
        · rw [if_pos (by assumption)]
          rcases ih _ _ _ _ h with h' | h'
          · rcases List.mem_append.mp h' with h'' | h''
            · exact Or.inl h''
            · have heq := List.mem_singleton.mp h''
              have h1 : f = g := congrArg Prod.fst heq
              refine Or.inr fun hc => ?_
              have h2 := send_files_loop_disk_mono o fuel _ _ _ hc
              rw [h1] at h2
              exact absurd h2 (Finset.not_mem_erase _ _)
          · exact Or.inr h'
        · rw [if_neg (by assumption)]
          rcases ih _ _ _ _ h with h' | h'
          · rcases List.mem_append.mp h' with h'' | h''
            · exact Or.inl h''
            · have heq := List.mem_singleton.mp h''
              have h1 : f = g := congrArg Prod.fst heq
              refine Or.inr fun hc => ?_
              have h2 := send_files_loop_disk_mono o fuel _ _ _ hc
              rw [h1] at h2
              exact absurd h2 (Finset.not_mem_erase _ _)
          · exact Or.inr h'

theorem send_files_loop_saved_mono (o : Nat → Agent.SendOutcome) :
    ∀ fuel n st, st.saved_id.isSome = true →
      (Agent.send_files_loop o fuel n st).saved_id.isSome = true := by
  intro fuel
  induction fuel with
  | zero => intro n st h; exact h
  | succ fuel ih =>
    intro n st h
    cases hg : st.json_files[n]? with
    | none => simp only [Agent.send_files_loop, hg]; exact h
    | some g =>
      cases ho : o n with
      | connectionLost => simp only [Agent.send_files_loop, hg, ho]; exact h
      | fileFailure =>
        simp only [Agent.send_files_loop, hg, ho]
        exact ih _ _ (by simpa using h)
      | otherFailure =>
        simp only [Agent.send_files_loop, hg, ho]
        exact ih _ _ (by simpa using h)
      | resendStatic =>
        simp only [Agent.send_files_loop, hg, ho]
        split
        · exact ih _ _ (by simpa using h)
        · exact ih _ _ (by simpa using h)
      | success mid =>
        simp only [Agent.send_files_loop, hg, ho]
        split
        · rename_i hc
          exact ih _ _ (by simpa using truthyStr_isSome hc.2)
        · exact ih _ _ (by simpa using h)

theorem send_files_loop_success_saved (o : Nat → Agent.SendOutcome) :
    ∀ fuel n st m, truthyStr (some m) = true →
      ("1.json.gz", Agent.SendOutcome.success (some m))
          ∈ (Agent.send_files_loop o fuel n st).log →
      ("1.json.gz", Agent.SendOutcome.success (some m)) ∈ st.log ∨
        (Agent.send_files_loop o fuel n st).saved_id.isSome = true := by
  intro fuel
  induction fuel with
  | zero => intro n st m _ h; exact Or.inl h
  | succ fuel ih =>
    intro n st m ht h
    cases hg : st.json_files[n]? with
    | none => simp only [Agent.send_files_loop, hg] at h ⊢; exact Or.inl h
    | some g =>
      cases ho : o n with
      | connectionLost =>
        simp only [Agent.send_files_loop, hg, ho] at h ⊢
        rcases List.mem_append.mp h with h | h
        · exact Or.inl h
        · exact absurd (List.mem_singleton.mp h) (by simp)
      | fileFailure =>
        simp only [Agent.send_files_loop, hg, ho] at h ⊢
        rcases ih _ _ _ ht h with h' | h'
        · rcases List.mem_append.mp h' with h'' | h''
          · exact Or.inl h''
          · exact absurd (List.mem_singleton.mp h'') (by simp)
        · exact Or.inr h'
      | otherFailure =>
        simp only [Agent.send_files_loop, hg, ho] at h ⊢
        rcases ih _ _ _ ht h with h' | h'
        · rcases List.mem_append.mp h' with h'' | h''
          · exact Or.inl h''
          · exact absurd (List.mem_singleton.mp h'') (by simp)
        · exact Or.inr h'
      | resendStatic =>
        simp only [Agent.send_files_loop, hg, ho] at h ⊢
        split at h
        · rw [if_pos (by assumption)]
          rcases ih _ _ _ ht h with h' | h'
          · rcases List.mem_append.mp h' with h'' | h''
            · exact Or.inl h''
            · exact absurd (List.mem_singleton.mp h'') (by simp)
          · exact Or.inr h'
        · rw [if_neg (by assumption)]
          rcases ih _ _ _ ht h with h' | h'
          · rcases List.mem_append.mp h' with h'' | h''
            · exact Or.inl h''
            · exact absurd (List.mem_singleton.mp h'') (by simp)
          · exact Or.inr h'
      | success mid =>
        by_cases hc : g = "1.json.gz" ∧ truthyStr mid = true
        · simp only [Agent.send_files_loop, hg, ho, if_pos hc] at h ⊢
          exact Or.inr (send_files_loop_saved_mono o fuel _ _ (truthyStr_isSome hc.2))
        · simp only [Agent.send_files_loop, hg, ho, if_neg hc] at h ⊢
          rcases ih _ _ _ ht h with h' | h'
          · rcases List.mem_append.mp h' with h'' | h''
            · exact Or.inl h''
            · exfalso
              have heq := List.mem_singleton.mp h''
              have h1 : g = "1.json.gz" := (congrArg Prod.fst heq).symm
              have h2 : Agent.SendOutcome.success (some m)
                  = Agent.SendOutcome.success mid := congrArg Prod.snd heq
              have h3 : some m = mid := by injection h2
              exact hc ⟨h1, h3 ▸ ht⟩
          · exact Or.inr h'

/-! ## Spool-counter lemmas -/

theorem nextFreeFrom_ge (disk : Finset Nat) :
    ∀ fuel c, c ≤ Agent.nextFreeFrom disk fuel c := by
  intro fuel
  induction fuel with
  | zero => intro c; exact le_refl c
  | succ fuel ih =>
    intro c
    rw [Agent.nextFreeFrom]
    split
    · exact le_trans (Nat.le_succ c) (ih (c + 1))
    · exact le_refl c

theorem nextFreeFrom_min (disk : Finset Nat) :
    ∀ fuel c m, c ≤ m → m < Agent.nextFreeFrom disk fuel c → m ∈ disk := by
  intro fuel
  induction fuel with
  | zero =>
    intro c m hcm hm
    rw [Agent.nextFreeFrom] at hm
    omega
  | succ fuel ih =>
    intro c m hcm hm
    rw [Agent.nextFreeFrom] at hm
    split at hm
    · rcases Nat.eq_or_lt_of_le hcm with hce | hcl
      · subst hce; assumption
      · exact ih (c + 1) m hcl hm
    · omega

theorem nextFreeFrom_stuck (disk : Finset Nat) :
    ∀ fuel c, Agent.nextFreeFrom disk fuel c ∉ disk ∨ ∀ i < fuel, c + i ∈ disk := by
  intro fuel
  induction fuel with
  | zero => intro c; right; intro i hi; omega
  | succ fuel ih =>
    intro c
    rw [Agent.nextFreeFrom]
    by_cases hc : c ∈ disk
    · rw [if_pos hc]
      rcases ih (c + 1) with h | h
      · exact Or.inl h
      · right
        intro i hi
        cases i with
        | zero => simpa using hc
        | succ j =>
          have := h j (by omega)
          have he : c + (j + 1) = c + 1 + j := by omega
          rw [he]
          exact this
    · rw [if_neg hc]
      exact Or.inl hc

theorem nextFreeFrom_not_mem (disk : Finset Nat) (fuel c : Nat)
    (h : disk.card < fuel) : Agent.nextFreeFrom disk fuel c ∉ disk := by
  rcases nextFreeFrom_stuck disk fuel c with h' | h'
  · exact h'
  · exfalso
    have hsub : (Finset.range fuel).image (fun i => c + i) ⊆ disk := by
      intro x hx
      rcases Finset.mem_image.mp hx with ⟨i, hi, rfl⟩
      exact h' i (Finset.mem_range.mp hi)
    have hinj : Function.Injective (fun i => c + i) := fun i j hij =>
      Nat.add_left_cancel hij
    have hcard : ((Finset.range fuel).image (fun i => c + i)).card = fuel := by
      rw [Finset.card_image_of_injective _ hinj, Finset.card_range]
    have := Finset.card_le_card hsub
    omega

/-! ## Claim theorems -/

/-- C1.  During a send cycle, a spool file is removed from the spool
directory if and only if some iteration of the per-file loop carried that
exact file and received a `status = "success"` response for it; on
`RESEND_STATIC_DATA`, any other error response, a per-file read/parse
failure, or a connection loss, the file stays on disk. -/
theorem send_files_delete_iff_success (o : Nat → Agent.SendOutcome) (fuel : Nat)
    (files : List String) (disk : Finset String) (mid sid : Option String)
    (f : String) (hf : f ∈ disk) :
    f ∉ (Agent.send_files_loop o fuel 0 (Agent.initSendState files disk mid sid)).disk ↔
      ∃ m, (f, Agent.SendOutcome.success m)
        ∈ (Agent.send_files_loop o fuel 0 (Agent.initSendState files disk mid sid)).log := by
  constructor
  · intro h
    exact send_files_loop_removed_success o fuel 0 _ f hf h
  · rintro ⟨m, hm⟩
    rcases send_files_loop_success_removed o fuel 0 _ f m hm with h | h
    · exact absurd h (List.not_mem_nil _)
    · exact h

/-- Witness for C1: a one-file cycle whose only envelope is acknowledged with
`success` ends with the file deleted. -/
theorem send_files_delete_iff_success_witness :
    "2.json.gz" ∉ (Agent.send_files_loop (fun _ => Agent.SendOutcome.success none) 1 0
      (Agent.initSendState ["2.json.gz"] {"2.json.gz"} none none)).disk :=
  (send_files_delete_iff_success (fun _ => Agent.SendOutcome.success none) 1
      ["2.json.gz"] {"2.json.gz"} none none "2.json.gz" (by decide)).mpr
    ⟨none, by decide⟩

/-- C3 (evaluation at the failing input).  With `2.json.gz` and `3.json.gz`
pending, `1.json.gz` on disk and the server answering `RESEND_STATIC_DATA`,
the iteration after the RESEND carries `2.json.gz` again — not `1.json.gz`:
`insert(0, "1.json.gz")` lands in the region the iterator has already
consumed, so the snapshot is never re-sent and the cycle spins on the
current file. -/
theorem resend_reprocesses_current_file :
    (Agent.send_files_loop (fun _ => Agent.SendOutcome.resendStatic) 2 0
      (Agent.initSendState ["2.json.gz", "3.json.gz"]
        {"1.json.gz", "2.json.gz", "3.json.gz"} (some "stale") (some "stale"))).log
      = [("2.json.gz", Agent.SendOutcome.resendStatic),
         ("2.json.gz", Agent.SendOutcome.resendStatic)] := by decide

/-- C10.  If some iteration of the send loop received `success` with a
(truthy) `machine_id` for `1.json.gz`, then at the end of the cycle the
identity file has been written (`save_machine_id`) and `1.json.gz` is no
longer on disk. -/
theorem snapshot_success_persists_id_and_deletes (o : Nat → Agent.SendOutcome)
    (fuel : Nat) (files : List String) (disk : Finset String)
    (mid sid : Option String) (m : String) (hm : m ≠ "")
    (hlog : ("1.json.gz", Agent.SendOutcome.success (some m))
        ∈ (Agent.send_files_loop o fuel 0 (Agent.initSendState files disk mid sid)).log) :
    (Agent.send_files_loop o fuel 0
        (Agent.initSendState files disk mid sid)).saved_id.isSome = true ∧
      "1.json.gz" ∉ (Agent.send_files_loop o fuel 0
        (Agent.initSendState files disk mid sid)).disk := by
  have ht : truthyStr (some m) = true := by simp [truthyStr, hm]
  constructor
  · rcases send_files_loop_success_saved o fuel 0 _ m ht hlog with h | h
    · exact absurd h (List.not_mem_nil _)
    · exact h
  · rcases send_files_loop_success_removed o fuel 0 _ _ _ hlog with h | h
    · exact absurd h (List.not_mem_nil _)
    · exact h

/-- Witness for C10: a cycle whose snapshot envelope is acknowledged with a
machine id ends with the id persisted and the snapshot file gone. -/
theorem snapshot_success_persists_id_and_deletes_witness :
    (Agent.send_files_loop (fun _ => Agent.SendOutcome.success (some "abc")) 1 0
        (Agent.initSendState ["1.json.gz"] {"1.json.gz"} none none)).saved_id.isSome = true ∧
      "1.json.gz" ∉ (Agent.send_files_loop (fun _ => Agent.SendOutcome.success (some "abc")) 1 0
        (Agent.initSendState ["1.json.gz"] {"1.json.gz"} none none)).disk :=
  snapshot_success_persists_id_and_deletes (fun _ => Agent.SendOutcome.success (some "abc"))
    1 ["1.json.gz"] {"1.json.gz"} none none "abc" (by decide) (by decide)

/-- C4 (counterexample).  The send list is built with Python `sorted` on file
name strings, which is lexicographic: an identified client with `10.json.gz`
and `2.json.gz` pending sends `10.json.gz` first, refuting the claimed
numeric (oldest-first) order. -/
theorem send_order_lexicographic_counterexample :
    Agent.sendList ["10.json.gz", "2.json.gz"] (some "mid")
        = ["10.json.gz", "2.json.gz"] ∧
      Agent.sendList ["10.json.gz", "2.json.gz"] (some "mid")
        ≠ ["2.json.gz", "10.json.gz"] := by decide

/-- C4 (amended).  The send list is the lexicographically sorted `.json.gz`
listing; when the client has no (truthy) identity and the snapshot is
pending, `1.json.gz` is forced to the front and the rest stays
lexicographically sorted. -/
theorem sendList_order (listing : List String) (machine_id : Option String) :
    (Agent.sendList listing machine_id).Pairwise (fun a b => strLe a b = true) ∨
      (truthyStr machine_id = false ∧
        (Agent.sendList listing machine_id).head? = some "1.json.gz" ∧
        (Agent.sendList listing machine_id).tail.Pairwise
          (fun a b => strLe a b = true)) := by
  unfold Agent.sendList
  by_cases h : "1.json.gz" ∈ sortLe strLe (listing.filter fun f => strEndsWith f ".json.gz")
      ∧ truthyStr machine_id = false
  · right
    rw [if_pos h]
    exact ⟨h.2, rfl,
      (pairwise_sortLe strLe strLe_trans strLe_total _).filter _⟩
  · left
    rw [if_neg h]
    exact pairwise_sortLe strLe strLe_trans strLe_total _

/-- C6 (counterexample).  With spool files `1.json.gz` and `3.json.gz`
present, the restarted counter scans from 1 and lands on the gap 2 — a number
whose file was already sent and deleted — not on `max(existing) + 1 = 4`. -/
theorem reset_file_counter_gap_counterexample :
    Agent.reset_file_counter {1, 3} = 2 ∧
      (2 : Nat) ∉ ({1, 3} : Finset Nat) ∧
      Agent.reset_file_counter {1, 3} ≠ 3 + 1 := by decide

/-- C6 (amended).  After a restart `reset_file_counter` resumes from the
*smallest* positive number whose file is absent: the result is at least 1,
never names a still-present file, every smaller positive number is still
present (so gaps left by sent-and-deleted files are reused), and the next
`get_next_filename` call picks exactly this number. -/
theorem reset_file_counter_least_free (disk : Finset Nat) :
    1 ≤ Agent.reset_file_counter disk ∧
      Agent.reset_file_counter disk ∉ disk ∧
      (∀ m, 1 ≤ m → m < Agent.reset_file_counter disk → m ∈ disk) ∧
      Agent.get_next_filename disk (Agent.reset_file_counter disk)
        = Agent.reset_file_counter disk := by
  have hnm : Agent.reset_file_counter disk ∉ disk :=
    nextFreeFrom_not_mem disk (disk.card + 1) 1 (Nat.lt_succ_self _)
  refine ⟨nextFreeFrom_ge disk _ 1, hnm, ?_, ?_⟩
  · intro m h1 h2
    exact nextFreeFrom_min disk (disk.card + 1) 1 m h1 h2
  · unfold Agent.get_next_filename
    rw [Agent.nextFreeFrom, if_neg hnm]

/-- Witness for C6: at `disk = {1, 3}` the restarted counter is 2, free and
minimal (1 is still present), and `get_next_filename` picks it. -/
theorem reset_file_counter_least_free_witness :
    Agent.reset_file_counter {1, 3} ∉ ({1, 3} : Finset Nat) ∧
      (1 : Nat) ∈ ({1, 3} : Finset Nat) ∧
      Agent.get_next_filename {1, 3} (Agent.reset_file_counter {1, 3})
        = Agent.reset_file_counter {1, 3} :=
  ⟨(reset_file_counter_least_free {1, 3}).2.1,
    (reset_file_counter_least_free {1, 3}).2.2.1 1 (by decide) (by decide),
    (reset_file_counter_least_free {1, 3}).2.2.2⟩

/-- C7.  `generate_machine_id` depends only on the fingerprint fields: on the
same snapshot it returns the same id, and on a snapshot differing only in
`timestamp`, `adresse_mac`, `disque`, `gpu` or `peripheriques_usb` it also
returns the same id, for every digest function. -/
theorem generate_machine_id_fingerprint_only (md5hex : String → String)
    (s : StaticContent) (t a d g p : Option String) :
    Server.generate_machine_id md5hex
        { s with timestamp := t, adresse_mac := a, disque := d, gpu := g,
                 peripheriques_usb := p }
      = Server.generate_machine_id md5hex s ∧
    Server.generate_machine_id md5hex s = Server.generate_machine_id md5hex s :=
  ⟨rfl, rfl⟩

/-- C9.  The server's online identity derivation and the offline bootstrap
path's derivation are extensionally equal: for every snapshot (and the shared
MD5 digest) both return the same id. -/
theorem generate_machine_id_online_offline_agree (md5hex : String → String)
    (s : StaticContent) :
    Server.generate_machine_id md5hex s = ZipProcessor.generate_machine_id md5hex s :=
  rfl

theorem poolStep_preserves_inv (st st2 : Server.PoolState) (e : Server.PoolEvent)
    (hstep : Server.poolStep st e = some st2) (h : Server.PoolInv st) :
    Server.PoolInv st2 := by
  cases e with
  | submit =>
    simp only [Server.poolStep] at hstep
    cases hstep
    simpa [Server.PoolInv, Server.PoolState.runningWorkers] using h
  | workerStart =>
    simp only [Server.poolStep] at hstep
    split at hstep
    · rename_i hguard
      cases hstep
      simp only [Server.PoolInv, Server.PoolState.runningWorkers, Server.MAX_WORKERS,
        Server.MAX_CONCURRENT_CONNECTIONS] at h hguard ⊢
      omega
    · exact Option.noConfusion hstep
  | enterLock =>
    simp only [Server.poolStep, Server.PoolState.active_connections] at hstep
    split at hstep
    · rename_i hpre
      split at hstep
      · rename_i hover
        exfalso
        simp only [Server.PoolInv, Server.PoolState.runningWorkers, Server.MAX_WORKERS,
          Server.MAX_CONCURRENT_CONNECTIONS] at h hover
        omega
      · cases hstep
        simp only [Server.PoolInv, Server.PoolState.runningWorkers, Server.MAX_WORKERS,
          Server.MAX_CONCURRENT_CONNECTIONS] at h ⊢
        omega
    · exact Option.noConfusion hstep
  | finishServe =>
    simp only [Server.poolStep] at hstep
    split at hstep
    · rename_i hpos
      cases hstep
      simp only [Server.PoolInv, Server.PoolState.runningWorkers, Server.MAX_WORKERS,
        Server.MAX_CONCURRENT_CONNECTIONS] at h ⊢
      omega
    · exact Option.noConfusion hstep
  | finishReject =>
    simp only [Server.poolStep] at hstep
    split at hstep
    · rename_i hpos
      cases hstep
      simp only [Server.PoolInv, Server.PoolState.runningWorkers, Server.MAX_WORKERS,
        Server.MAX_CONCURRENT_CONNECTIONS] at h ⊢
      omega
    · exact Option.noConfusion hstep

theorem runPool_inv :
    ∀ (events : List Server.PoolEvent) (st : Server.PoolState),
      Server.PoolInv st → Server.PoolInv (Server.runPool events st) := by
  intro events
  induction events with
  | nil => intro st h; exact h
  | cons e es ih =>
    intro st h
    cases hstep : Server.poolStep st e with
    | none => simp only [Server.runPool, hstep]; exact ih st h
    | some st2 =>
      simp only [Server.runPool, hstep]
      exact ih st2 (poolStep_preserves_inv st st2 e hstep h)

/-- C5 (counterexample).  Fill the server to its cap and accept one more
connection: 50 connections are being served concurrently and the additional
one has arrived, yet no `Too many connections` response has ever been sent
(`rejectedTotal = 0`) and the extra connection cannot even begin
`handle_client` (`workerStart` is disabled: all `max_workers` pool threads
are busy) — it waits in the executor queue instead of being immediately
rejected and closed. -/
theorem admission_cap_queues_counterexample :
    (Server.runPool Server.overCapTrace Server.initPool).serving = 50 ∧
      (Server.runPool Server.overCapTrace Server.initPool).queued = 1 ∧
      (Server.runPool Server.overCapTrace Server.initPool).rejectedTotal = 0 ∧
      Server.poolStep (Server.runPool Server.overCapTrace Server.initPool)
          Server.PoolEvent.workerStart = none := by decide

/-- C5 (amended).  Because `handle_client` is the only code touching
`active_connections` and it runs on a pool of at most
`max_workers = MAX_CONCURRENT_CONNECTIONS` threads, under every schedule the
counter stays at or below the cap and the rejection branch never fires: no
connection is ever answered `Too many connections`.  An inbound connection
beyond the cap waits in the executor queue until a worker finishes, leaving
the connections already being served unaffected. -/
theorem admission_rejection_never_fires (events : List Server.PoolEvent) :
    (Server.runPool events Server.initPool).active_connections
        ≤ Server.MAX_CONCURRENT_CONNECTIONS ∧
      (Server.runPool events Server.initPool).runningWorkers ≤ Server.MAX_WORKERS ∧
      (Server.runPool events Server.initPool).rejectedTotal = 0 := by
  have h := runPool_inv events Server.initPool
    (by
      refine ⟨?_, rfl, rfl⟩
      rw [Server.PoolState.runningWorkers]
      exact Nat.zero_le _)
  obtain ⟨h1, h2, h3⟩ := h
  refine ⟨?_, h1, h3⟩
  rw [Server.PoolState.active_connections]
  rw [Server.PoolState.runningWorkers, Server.MAX_WORKERS] at h1
  omega

/-- C8 (counterexample).  At spool size `STORAGE_LIMIT` the
`continuous_collection` loop takes the `break` branch: the tick is a halt,
not a paused-capture tick with sending still running. -/
theorem storage_cap_halts_collection :
    Agent.continuous_collection_step ⟨Agent.STORAGE_LIMIT, true, some "m", true⟩
        = Agent.CollectionStep.halt ∧
      Agent.continuous_collection_step ⟨Agent.STORAGE_LIMIT, true, some "m", true⟩
        ≠ Agent.CollectionStep.ran false true := by decide

/-- C8 (amended).  Reaching the byte cap terminates the collection loop
entirely (no further capture *and* no further send from this loop); below
the cap a tick captures exactly when the identity is truthy and sends
exactly when the send interval has elapsed. -/
theorem continuous_collection_step_spec (st : Agent.CollectionState) :
    (Agent.is_storage_limit_reached st.dirSize = true →
        Agent.continuous_collection_step st = Agent.CollectionStep.halt) ∧
      (Agent.is_storage_limit_reached st.dirSize = false →
        Agent.continuous_collection_step st
          = Agent.CollectionStep.ran (truthyStr st.machine_id) st.dueSend) := by
  constructor
  · intro h
    simp [Agent.continuous_collection_step, h]
  · intro h
    simp [Agent.continuous_collection_step, h]

/-- Witness for C8: at the cap the loop halts; strictly below it the tick
captures and sends. -/
theorem continuous_collection_step_spec_witness :
    Agent.continuous_collection_step ⟨Agent.STORAGE_LIMIT, true, some "m", true⟩
        = Agent.CollectionStep.halt ∧
      Agent.continuous_collection_step ⟨0, true, some "m", true⟩
        = Agent.CollectionStep.ran true true :=
  ⟨(continuous_collection_step_spec ⟨Agent.STORAGE_LIMIT, true, some "m", true⟩).1
      (by decide),
    (continuous_collection_step_spec ⟨0, true, some "m", true⟩).2 (by decide)⟩

/-- C2 (counterexample).  An envelope whose content is not snapshot-shaped
and whose machine id is unknown to the registry is *not* always answered
`RESEND_STATIC_DATA`: with a wrong protocol version the server answers
`Invalid data version` instead. -/
theorem resend_needs_version_counterexample :
    (Server.process_data id ⟨∅, ∅, []⟩
        ⟨some "0.9", some StaticContent.empty, true, some "x"⟩).1
        = ⟨"error", some "Invalid data version", none⟩ ∧
      StaticContent.empty.os = none ∧
      "x" ∉ (∅ : Finset String) := by decide

/-- C2 (amended).  For an envelope with version `"1.0"`, a present content
object without an `os` key, and a `machine_id` key whose value is not a
registered id (including null), `process_data` answers
`error`/`RESEND_STATIC_DATA` and leaves the store untouched; and
`process_data` preserves the invariant that every persisted sample's id has
a machine-registry entry. -/
theorem process_data_resend_and_registry_invariant (md5hex : String → String)
    (db : ServerDB) (data : WireData) :
    (∀ c, data.version = some "1.0" → data.content = some c → c.os = none →
        data.has_machine_id = true →
        (∀ m, data.machine_id = some m → m ∉ db.machine_ids) →
        Server.process_data md5hex db data
          = (⟨"error", some "RESEND_STATIC_DATA", none⟩, db)) ∧
      ((∀ m ∈ db.variable_docs, m ∈ db.machine_ids) →
        ∀ m ∈ (Server.process_data md5hex db data).2.variable_docs,
          m ∈ (Server.process_data md5hex db data).2.machine_ids) := by
  constructor
  · intro c hv hc hos hkey hreg
    unfold Server.process_data
    rw [if_neg (by simp [hv])]
    simp only [hc, hos, Option.isSome_none, Bool.false_eq_true, if_false, hkey, if_true]
    cases hmid : data.machine_id with
    | none => simp
    | some m => simp [hreg m hmid]
  · intro hinv m
    unfold Server.process_data
    by_cases hv : data.version ≠ some "1.0"
    · rw [if_pos hv]
      exact fun hm => hinv m hm
    · rw [if_neg hv]
      cases hc : data.content with
      | none =>
        simp only [hc]
        exact fun hm => hinv m hm
      | some content =>
        simp only [hc]
        by_cases hos : content.os.isSome = true
        · rw [if_pos hos]
          by_cases hval : staticDataValidates content = true
          · rw [if_pos hval]
            intro hm
            exact Finset.mem_insert_of_mem (hinv m hm)
          · rw [if_neg hval]
            exact fun hm => hinv m hm
        · rw [if_neg hos]
          by_cases hkey : data.has_machine_id = true
          · rw [if_pos hkey]
            cases hmid : data.machine_id with
            | none =>
              simp only [hmid]
              exact fun hm => hinv m hm
            | some mid =>
              simp only [hmid]
              by_cases hmem : mid ∈ db.machine_ids
              · rw [if_pos hmem]
                intro hm
                rcases List.mem_append.mp hm with hm | hm
                · exact hinv m hm
                · rw [List.mem_singleton.mp hm]
                  exact hmem
              · rw [if_neg hmem]
                exact fun hm => hinv m hm
          · rw [if_neg hkey]
            exact fun hm => hinv m hm

/-- Witness for C2: an unregistered sample envelope with the right version is
answered `RESEND_STATIC_DATA` and the empty store stays empty. -/
theorem process_data_resend_witness :
    Server.process_data id ⟨∅, ∅, []⟩
        ⟨some "1.0", some StaticContent.empty, true, some "x"⟩
      = (⟨"error", some "RESEND_STATIC_DATA", none⟩, ⟨∅, ∅, []⟩) :=
  (process_data_resend_and_registry_invariant id ⟨∅, ∅, []⟩
      ⟨some "1.0", some StaticContent.empty, true, some "x"⟩).1
    StaticContent.empty rfl rfl rfl rfl
    (fun m h => by
      cases h
      exact Finset.not_mem_empty "x")

end AgentColl
